import Mathlib

/-!
# Verification of the RC4 stream-cipher module (`rc4.py`)

Shallow embedding of the RC4 engine and its statistical test harness.
Python lists become `List Nat` (all integers involved are non-negative),
the mutable `RC4` object becomes a record threaded through pure
functions, and the one fallible operation (key scheduling with an empty
key, which raises `ZeroDivisionError` in Python at `key[i % 0]`) is
modelled with `Except`, the error carrying the state of the object at
the moment the exception propagates.
-/

/-- Python runtime errors that the embedded code can raise. -/
inductive PyErr where
  | zeroDivision : PyErr
  deriving DecidableEq, Repr

/-- The fields of the Python `RC4` object: S-box `s`, generator
pointers `i` and `j`, box size `n`, the key, and the scheduling
snapshot `swap`. -/
structure RC4 where
  s : List Nat
  i : Nat
  j : Nat
  n : Nat
  key : List Nat
  swap : List Nat
  deriving DecidableEq, Repr

/-- `RC4.__init__(key, n)`: empty S-box and snapshot, pointers zero. -/
def mkRC4 (key : List Nat) (n : Nat) : RC4 :=
  { s := [], i := 0, j := 0, n := n, key := key, swap := [] }

/-- The Python parallel assignment `s[a], s[b] = s[b], s[a]`:
both right-hand sides are read first, then stored left to right. -/
def listSwap (s : List Nat) (a b : Nat) : List Nat :=
  (s.set a (s.getD b 0)).set b (s.getD a 0)

/-- One iteration of the key-scheduling loop in `RC4.ks`
(`tmp = key[i % l]; j = (j + s[i] + tmp) % n; swap; swap[i] = s[i]`),
acting on the loop state `(s, swap, j)` at loop index `i`. -/
def ksStep (key : List Nat) (n i : Nat) (st : List Nat × List Nat × Nat) :
    List Nat × List Nat × Nat :=
  let tmp := key.getD (i % key.length) 0
  let j2 := (st.2.2 + st.1.getD i 0 + tmp) % n
  let s2 := listSwap st.1 i j2
  (s2, st.2.1.set i (s2.getD i 0), j2)

/-- The first `m` iterations of the key-scheduling loop. -/
def ksIter (key : List Nat) (n : Nat) :
    Nat → List Nat × List Nat × Nat → List Nat × List Nat × Nat
  | 0, st => st
  | m + 1, st => ksStep key n m (ksIter key n m st)

/-- The loop state `RC4.ks` starts from: identity S-box
(`list(range(0, n))`), all-zero snapshot (`[0] * n`), `j = 0`. -/
def ksInit (n : Nat) : List Nat × List Nat × Nat :=
  (List.range n, List.replicate n 0, 0)

/-- `RC4.ks`.  Python first assigns `self.s = list(range(0, self.n))`
and `self.swap = [0] * self.n`, then enters the loop; with an empty key
and `n > 0` the first iteration raises `ZeroDivisionError` at
`self.key[i % l]` (since `l = 0`), so the error carries the object with
`s` and `swap` already overwritten.  With an empty key and `n = 0` the
loop body never runs and no error is raised.  The loop variable `j` is
local: `self.i` and `self.j` are not touched. -/
def RC4.ks (r : RC4) : Except (PyErr × RC4) RC4 :=
  let s0 := List.range r.n
  let sw0 := List.replicate r.n 0
  if r.key.length = 0 then
    if r.n = 0 then
      Except.ok { r with s := s0, swap := sw0 }
    else
      Except.error (PyErr.zeroDivision, { r with s := s0, swap := sw0 })
  else
    let res := ksIter r.key r.n r.n (ksInit r.n)
    Except.ok { r with s := res.1, swap := res.2.1 }

/-- `RC4.next`: advance `i`, advance `j` by `s[i]`, swap, emit
`s[(s[i] + s[j]) % n]`.  Returns the emitted value and the new state. -/
def RC4.next (r : RC4) : Nat × RC4 :=
  let i2 := (r.i + 1) % r.n
  let tmp := r.s.getD i2 0
  let j2 := (r.j + tmp) % r.n
  let s2 := listSwap r.s i2 j2
  let k := (s2.getD i2 0 + s2.getD j2 0) % r.n
  (s2.getD k 0, { r with s := s2, i := i2, j := j2 })

/-- The loop of `RC4.crypt`: XOR each message byte with the next
keystream byte, threading the engine state. -/
def cryptLoop (msg : List Nat) (r : RC4) : List Nat × RC4 :=
  match msg with
  | [] => ([], r)
  | m :: rest =>
    let p := r.next
    let q := cryptLoop rest p.2
    ((m ^^^ p.1) :: q.1, q.2)

/-- `RC4.crypt`: run `self.ks()` (which may raise), then XOR the
message with the keystream. -/
def RC4.crypt (r : RC4) (msg : List Nat) : Except (PyErr × RC4) (List Nat × RC4) :=
  match r.ks with
  | Except.error e => Except.error e
  | Except.ok r1 => Except.ok (cryptLoop msg r1)

/-- `m` successive calls to `RC4.next`, keeping only the state. -/
def iterNext (r : RC4) : Nat → RC4
  | 0 => r
  | m + 1 => ((iterNext r m).next).2

/-- The loop of `RC4RandomTest.test`: draw a keystream byte and
increment its cell of the frequency table, `count` times. -/
def randomTestLoop : Nat → RC4 → List Nat → List Nat × RC4
  | 0, r, values => (values, r)
  | c + 1, r, values =>
    let p := r.next
    randomTestLoop c p.2 (values.set p.1 (values.getD p.1 0 + 1))

/-- `RC4RandomTest.test(count)` on an engine whose scheduling has
already been run (`initRC4`): `values = [0] * len(self.rc4.s)`, then
`count` draws. -/
def RC4RandomTest.test (r : RC4) (count : Nat) : List Nat × RC4 :=
  randomTestLoop count r (List.replicate r.s.length 0)

/-- Running `crypt` twice in sequence on the same engine instance:
the state left by the first call (pointers included) feeds the second.
Returns the output of the second call when neither call raises. -/
def doubleCryptSame (key : List Nat) (n : Nat) (msg : List Nat) : Option (List Nat) :=
  match (mkRC4 key n).crypt msg with
  | Except.error _ => none
  | Except.ok (c, r1) =>
    match r1.crypt c with
    | Except.error _ => none
    | Except.ok (p, _) => some p

/-- First code points of the 68 runs of ten consecutive Unicode
decimal-digit characters (general category `Nd`, Unicode 15.1): each
run holds the digits zero through nine of one script.  This is the
character class Python's `\d` matches on `str` patterns, and the digit
set `int` accepts. -/
def ndStarts : List Nat :=
  [0x30, 0x660, 0x6F0, 0x7C0, 0x966, 0x9E6, 0xA66, 0xAE6, 0xB66, 0xBE6,
   0xC66, 0xCE6, 0xD66, 0xDE6, 0xE50, 0xED0, 0xF20, 0x1040, 0x1090, 0x17E0,
   0x1810, 0x1946, 0x19D0, 0x1A80, 0x1A90, 0x1B50, 0x1BB0, 0x1C40, 0x1C50,
   0xA620, 0xA8D0, 0xA900, 0xA9D0, 0xA9F0, 0xAA50, 0xABF0, 0xFF10,
   0x104A0, 0x10D30, 0x11066, 0x110F0, 0x11136, 0x111D0, 0x112F0, 0x11450,
   0x114D0, 0x11650, 0x116C0, 0x11730, 0x118E0, 0x11950, 0x11C50, 0x11D50,
   0x11DA0, 0x11F50, 0x16A60, 0x16AC0, 0x16B50, 0x1D7CE, 0x1D7D8, 0x1D7E2,
   0x1D7EC, 0x1D7F6, 0x1E140, 0x1E2F0, 0x1E4F0, 0x1E950, 0x1FBF0]

/-- Python's `\d` on a `str` pattern: any Unicode decimal digit
(category `Nd`), i.e. a character inside one of the `ndStarts` runs. -/
def isNd (c : Char) : Bool :=
  ndStarts.any (fun s => s ≤ c.toNat && c.toNat ≤ s + 9)

/-- The decimal value of a Unicode digit: its offset inside its `Nd`
run (each run starts at the script's zero). -/
def ndVal (c : Char) : Nat :=
  match ndStarts.find? (fun s => s ≤ c.toNat && c.toNat ≤ s + 9) with
  | some s => c.toNat - s
  | none => 0

/-- `TestRunner.check_int`, i.e. `re.match('^[1-9]\d*$', s) != None`
with Python semantics: `\d` matches any Unicode decimal digit (`isNd`)
and the final `$` also matches just before a single newline at the
very end of the string. -/
def restMatch : List Char → Bool
  | [] => true
  | [c] => c == '\n' || isNd c
  | c :: d :: rest => isNd c && restMatch (d :: rest)

/-- Head of the regex `^[1-9]\d*$`: the literal class `[1-9]` (ASCII
only) followed by `restMatch`. -/
def pyMatchCI : List Char → Bool
  | [] => false
  | c :: rest => (c.isDigit && !(c == '0')) && restMatch rest

/-- `TestRunner.check_int(s)`. -/
def check_int (s : String) : Bool :=
  pyMatchCI s.data

/-- The acceptance set claimed by the spec: a non-zero decimal digit
followed by zero or more (ASCII) digits, nothing else. -/
def digitsForm : List Char → Bool
  | [] => false
  | c :: rest => (c.isDigit && !(c == '0')) && rest.all Char.isDigit

/-- The acceptance set the code realizes: an ASCII digit `1`-`9`
followed by zero or more Unicode decimal digits. -/
def ndForm : List Char → Bool
  | [] => false
  | c :: rest => (c.isDigit && !(c == '0')) && rest.all isNd

/-- Python's `int(s)` on the strings `check_int` accepts: fold the
decimal value of each Unicode digit, ignoring the optional trailing
newline (Python `int` strips surrounding whitespace). -/
def pyInt (s : String) : Nat :=
  (s.data.filter isNd).foldl (fun a c => a * 10 + ndVal c) 0

/-- The mutable count of a `TestRunner`. -/
structure TestRunner where
  count : Nat
  deriving DecidableEq, Repr

/-- `TestRunner.__init__`: `self.count = 100000`. -/
def TestRunner.init : TestRunner :=
  { count := 100000 }

/-- `TestRunner.get_count`: replace the count by `int(input)` when
`check_int` accepts the input, keep the current count otherwise. -/
def TestRunner.get_count (t : TestRunner) (input : String) : TestRunner :=
  if check_int input then { t with count := pyInt input } else t

/-!
## Helper lemmas about lists
-/

lemma getD_set_self (l : List Nat) (i x : Nat) (h : i < l.length) :
    (l.set i x).getD i 0 = x := by
  rw [List.getD_eq_getElem _ _ (by simpa using h)]
  exact List.getElem_set_self _

lemma getD_set_ne (l : List Nat) (i j x : Nat) (hij : i ≠ j) :
    (l.set i x).getD j 0 = l.getD j 0 := by
  by_cases hj : j < l.length
  · rw [List.getD_eq_getElem _ _ (by simpa using hj), List.getD_eq_getElem _ _ hj]
    exact List.getElem_set_ne hij _
  · rw [List.getD_eq_default _ _ (by simpa using Nat.le_of_not_lt hj),
      List.getD_eq_default _ _ (Nat.le_of_not_lt hj)]

lemma getD_mem (l : List Nat) (i : Nat) (h : i < l.length) : l.getD i 0 ∈ l := by
  rw [List.getD_eq_getElem _ _ h]
  exact List.getElem_mem h

lemma length_listSwap (s : List Nat) (a b : Nat) :
    (listSwap s a b).length = s.length := by
  simp [listSwap]

/-- Moving the `m`-th element of a list to the front while writing `x`
into its cell is a permutation of consing `x` in front. -/
lemma perm_getD_cons_set (xs : List Nat) (m x : Nat) (h : m < xs.length) :
    List.Perm (xs.getD m 0 :: xs.set m x) (x :: xs) := by
  induction xs generalizing m with
  | nil => simp at h
  | cons y ys ih =>
    cases m with
    | zero => simpa using List.Perm.swap x y ys
    | succ k =>
      have hk : k < ys.length := by simpa using h
      have h1 : List.Perm (ys.getD k 0 :: y :: ys.set k x)
          (y :: ys.getD k 0 :: ys.set k x) := List.Perm.swap y (ys.getD k 0) _
      have h2 : List.Perm (y :: ys.getD k 0 :: ys.set k x) (y :: x :: ys) :=
        List.Perm.cons y (ih k hk)
      have h3 : List.Perm (y :: x :: ys) (x :: y :: ys) := List.Perm.swap x y ys
      simpa using (h1.trans h2).trans h3

/-- Swapping two in-range cells of a list yields a permutation of it. -/
lemma listSwap_perm (s : List Nat) (a b : Nat) (ha : a < s.length) (hb : b < s.length) :
    List.Perm (listSwap s a b) s := by
  induction s generalizing a b with
  | nil => simp at ha
  | cons y ys ih =>
    cases a with
    | zero =>
      cases b with
      | zero => simp [listSwap]
      | succ m =>
        have hm : m < ys.length := by simpa using hb
        simpa [listSwap] using perm_getD_cons_set ys m y hm
    | succ p =>
      have hp : p < ys.length := by simpa using ha
      cases b with
      | zero => simpa [listSwap] using perm_getD_cons_set ys p y hp
      | succ q =>
        have hq : q < ys.length := by simpa using hb
        simpa [listSwap] using List.Perm.cons y (ih p q hp hq)

lemma mem_listSwap (s : List Nat) (a b x : Nat) (ha : a < s.length)
    (hb : b < s.length) (hx : x ∈ listSwap s a b) : x ∈ s :=
  (listSwap_perm s a b ha hb).mem_iff.mp hx

/-- Incrementing one in-range cell of a list adds one to its sum. -/
lemma sum_set_incr (l : List Nat) (i : Nat) (h : i < l.length) :
    (l.set i (l.getD i 0 + 1)).sum = l.sum + 1 := by
  induction l generalizing i with
  | nil => simp at h
  | cons y ys ih =>
    cases i with
    | zero => simp [List.sum_cons]; omega
    | succ k =>
      have hk : k < ys.length := by simpa using h
      simp only [List.set_cons_succ, List.getD_cons_succ, List.sum_cons, ih k hk]
      omega

/-!
## Lemmas about key scheduling
-/

lemma ksIter_succ (key : List Nat) (n m : Nat) (st : List Nat × List Nat × Nat) :
    ksIter key n (m + 1) st = ksStep key n m (ksIter key n m st) := rfl

lemma ksIter_s_length (key : List Nat) (n : Nat) (st : List Nat × List Nat × Nat) :
    ∀ m, (ksIter key n m st).1.length = st.1.length := by
  intro m
  induction m with
  | zero => rfl
  | succ k ih => simpa [ksIter_succ, ksStep, length_listSwap] using ih

lemma ksIter_swap_length (key : List Nat) (n : Nat) (st : List Nat × List Nat × Nat) :
    ∀ m, (ksIter key n m st).2.1.length = st.2.1.length := by
  intro m
  induction m with
  | zero => rfl
  | succ k ih => simpa [ksIter_succ, ksStep] using ih

/-- After any prefix of the scheduling loop the S-box is a permutation
of `0..n-1`. -/
lemma ksIter_s_perm (key : List Nat) (n : Nat) (hn : 0 < n) (m : Nat) :
    m ≤ n → List.Perm (ksIter key n m (ksInit n)).1 (List.range n) := by
  induction m with
  | zero => intro _; simp [ksIter, ksInit]
  | succ k ih =>
    intro hm
    have hperm := ih (by omega)
    have hlen : (ksIter key n k (ksInit n)).1.length = n := by
      rw [ksIter_s_length]; simp [ksInit]
    have hk : k < (ksIter key n k (ksInit n)).1.length := by omega
    have hj : ((ksIter key n k (ksInit n)).2.2 + (ksIter key n k (ksInit n)).1.getD k 0 +
        key.getD (k % key.length) 0) % n < (ksIter key n k (ksInit n)).1.length := by
      rw [hlen]; exact Nat.mod_lt _ hn
    exact (listSwap_perm _ _ _ hk hj).trans hperm

/-- Scheduling-loop snapshot cells, once written, are never rewritten:
iteration `p` only writes `swap[p]`. -/
lemma ksIter_swap_stable (key : List Nat) (n k : Nat) :
    ∀ m, k < m → (ksIter key n m (ksInit n)).2.1.getD k 0 =
      (ksIter key n (k + 1) (ksInit n)).2.1.getD k 0 := by
  intro m
  induction m with
  | zero => omega
  | succ p ih =>
    intro h
    rcases Nat.lt_or_ge k p with hlt | hge
    · have hwrite : (ksIter key n (p + 1) (ksInit n)).2.1.getD k 0 =
          (ksIter key n p (ksInit n)).2.1.getD k 0 :=
        getD_set_ne _ p k _ (by omega)
      rw [hwrite, ih hlt]
    · have : k = p := by omega
      subst this
      rfl

/-- The snapshot cell written at iteration `k` holds the S-box value at
position `k` right after that iteration's swap. -/
lemma ksIter_swap_getD_succ (key : List Nat) (n k : Nat) (hk : k < n) :
    (ksIter key n (k + 1) (ksInit n)).2.1.getD k 0 =
      (ksIter key n (k + 1) (ksInit n)).1.getD k 0 := by
  have hlen : (ksIter key n k (ksInit n)).2.1.length = n := by
    rw [ksIter_swap_length]; simp [ksInit]
  exact getD_set_self _ _ _ (by omega)

/-- Successful run of `RC4.ks` on a non-empty key. -/
lemma ks_ok (r : RC4) (hk : r.key ≠ []) :
    r.ks = Except.ok { r with
      s := (ksIter r.key r.n r.n (ksInit r.n)).1,
      swap := (ksIter r.key r.n r.n (ksInit r.n)).2.1 } := by
  have hlen : ¬ r.key.length = 0 := by simpa [List.length_eq_zero] using hk
  simp [RC4.ks, hlen]

/-!
## Lemmas about keystream generation and encryption
-/

/-- One generator step keeps the state well-formed and emits a value
below `n`. -/
lemma next_invariant (r : RC4) (hn : 0 < r.n) (hlen : r.s.length = r.n)
    (hmem : ∀ x ∈ r.s, x < r.n) :
    (r.next).1 < r.n ∧ (r.next).2.s.length = r.n ∧ (∀ x ∈ (r.next).2.s, x < r.n) := by
  have hi : (r.i + 1) % r.n < r.s.length := by rw [hlen]; exact Nat.mod_lt _ hn
  have hj : (r.j + r.s.getD ((r.i + 1) % r.n) 0) % r.n < r.s.length := by
    rw [hlen]; exact Nat.mod_lt _ hn
  have hlen2 : (listSwap r.s ((r.i + 1) % r.n)
      ((r.j + r.s.getD ((r.i + 1) % r.n) 0) % r.n)).length = r.n := by
    rw [length_listSwap, hlen]
  have hmem2 : ∀ x ∈ listSwap r.s ((r.i + 1) % r.n)
      ((r.j + r.s.getD ((r.i + 1) % r.n) 0) % r.n), x < r.n := fun x hx =>
    hmem x (mem_listSwap _ _ _ x hi hj hx)
  refine ⟨?_, hlen2, hmem2⟩
  exact hmem2 _ (getD_mem _ _ (by rw [hlen2]; exact Nat.mod_lt _ hn))

lemma next_perm (r : RC4) (hn : 0 < r.n) (hperm : List.Perm r.s (List.range r.n)) :
    List.Perm ((r.next).2).s (List.range r.n) := by
  have hlen : r.s.length = r.n := by simpa using hperm.length_eq
  have hi : (r.i + 1) % r.n < r.s.length := by rw [hlen]; exact Nat.mod_lt _ hn
  have hj : (r.j + r.s.getD ((r.i + 1) % r.n) 0) % r.n < r.s.length := by
    rw [hlen]; exact Nat.mod_lt _ hn
  exact (listSwap_perm _ _ _ hi hj).trans hperm

lemma iterNext_n (r : RC4) (m : Nat) : (iterNext r m).n = r.n := by
  induction m with
  | zero => rfl
  | succ k ih => exact ih

lemma iterNext_perm (r : RC4) (hn : 0 < r.n)
    (hperm : List.Perm r.s (List.range r.n)) (m : Nat) :
    List.Perm (iterNext r m).s (List.range r.n) := by
  induction m with
  | zero => exact hperm
  | succ k ih =>
    have hn' : 0 < (iterNext r k).n := by rw [iterNext_n]; exact hn
    have h2 := next_perm (iterNext r k) hn' (by rw [iterNext_n]; exact ih)
    rw [iterNext_n] at h2
    exact h2

lemma cryptLoop_length (msg : List Nat) (r : RC4) :
    (cryptLoop msg r).1.length = msg.length := by
  induction msg generalizing r with
  | nil => rfl
  | cons m rest ih => simp [cryptLoop, ih]

/-- Encrypting twice from the same starting engine state restores the
message: each byte is XORed twice with the same keystream byte. -/
lemma cryptLoop_involution (msg : List Nat) (r : RC4) :
    (cryptLoop (cryptLoop msg r).1 r).1 = msg := by
  induction msg generalizing r with
  | nil => rfl
  | cons m rest ih => simp [cryptLoop, Nat.xor_cancel_right, ih]

lemma crypt_run (r R : RC4) (hR : r.ks = Except.ok R) (msg : List Nat) :
    r.crypt msg = Except.ok (cryptLoop msg R) := by
  simp only [RC4.crypt, hR]

/-- The counting loop of the randomness test: each draw adds exactly
one to the table's sum and keeps the table's length. -/
lemma randomTestLoop_sum (c : Nat) : ∀ (r : RC4) (values : List Nat),
    0 < r.n → r.s.length = r.n → (∀ x ∈ r.s, x < r.n) → values.length = r.n →
    (randomTestLoop c r values).1.sum = values.sum + c ∧
    (randomTestLoop c r values).1.length = r.n := by
  induction c with
  | zero =>
    intro r values _ _ _ hv
    exact ⟨by simp [randomTestLoop], hv⟩
  | succ c ih =>
    intro r values hn hlen hmem hv
    obtain ⟨hout, hlen2, hmem2⟩ := next_invariant r hn hlen hmem
    have hvlen : (values.set (r.next).1 (values.getD (r.next).1 0 + 1)).length = r.n := by
      simpa using hv
    have hrec := ih (r.next).2 (values.set (r.next).1 (values.getD (r.next).1 0 + 1))
      hn hlen2 hmem2 hvlen
    have hset : (values.set (r.next).1 (values.getD (r.next).1 0 + 1)).sum =
        values.sum + 1 := sum_set_incr values _ (by omega)
    constructor
    · show (randomTestLoop c (r.next).2
        (values.set (r.next).1 (values.getD (r.next).1 0 + 1))).1.sum = values.sum + (c + 1)
      rw [hrec.1, hset]
      omega
    · exact hrec.2

/-!
## Lemmas about the trial-count validator
-/

lemma band_true {a b : Bool} (h : (a && b) = true) : a = true ∧ b = true := by
  simpa using h

lemma band_intro {a b : Bool} (h1 : a = true) (h2 : b = true) : (a && b) = true := by
  simp [h1, h2]

lemma bor_true {a b : Bool} (h : (a || b) = true) : a = true ∨ b = true := by
  simpa using h

/-- What follows the leading digit matches iff it is all Unicode
decimal digits, optionally ended by a single trailing newline. -/
lemma restMatch_iff : ∀ l : List Char, restMatch l = true ↔
    (l.all isNd = true ∨
      ∃ d, l = d ++ ['\n'] ∧ d.all isNd = true)
  | [] => by simp [restMatch]
  | [c] => by
    by_cases hc : c = '\n'
    · subst hc
      constructor
      · intro _
        exact Or.inr ⟨[], rfl, rfl⟩
      · intro _
        rfl
    · constructor
      · intro h
        have h' : (c == '\n' || isNd c) = true := h
        rcases bor_true h' with h1 | h2
        · exact absurd (by simpa using h1) hc
        · exact Or.inl (by simp [h2])
      · intro h
        rcases h with h1 | ⟨d, hd, _⟩
        · have hdig : isNd c = true := by simpa using h1
          show (c == '\n' || isNd c) = true
          simp [hdig]
        · rcases d with _ | ⟨e, es⟩
          · simp at hd
            exact absurd hd hc
          · rw [List.cons_append] at hd
            injection hd with hd1 hd2
            exact absurd hd2.symm (List.append_ne_nil_of_right_ne_nil es (by simp))
  | c :: d :: rest => by
    have ih := restMatch_iff (d :: rest)
    constructor
    · intro h
      have h' : (isNd c && restMatch (d :: rest)) = true := h
      rcases band_true h' with ⟨h1, h2⟩
      rcases ih.mp h2 with h3 | ⟨e, he, hall⟩
      · exact Or.inl (by simp only [List.all_cons, h1, h3, Bool.and_self])
      · refine Or.inr ⟨c :: e, by rw [List.cons_append, ← he], ?_⟩
        simp only [List.all_cons, h1, hall, Bool.and_self]
    · intro h
      show (isNd c && restMatch (d :: rest)) = true
      rcases h with h1 | ⟨e, he, hall⟩
      · rcases band_true h1 with ⟨ha, hb⟩
        exact band_intro (ha) (ih.mpr (Or.inl hb))
      · rcases e with _ | ⟨f, fs⟩
        · simp at he
        · rw [List.cons_append] at he
          injection he with he1 he2
          rcases band_true hall with ⟨hf, hfs⟩
          refine band_intro (by rw [he1]; exact hf) (?_)
          exact ih.mpr (Or.inr ⟨fs, he2, hfs⟩)

/-- Full characterization of the accepted strings of `check_int`'s
regular expression under Python matching semantics. -/
lemma pyMatchCI_iff (l : List Char) : pyMatchCI l = true ↔
    ∃ core, (l = core ∨ l = core ++ ['\n']) ∧ ndForm core = true := by
  cases l with
  | nil =>
    constructor
    · intro h
      exact absurd h (by simp [pyMatchCI])
    · rintro ⟨core, hor, hd⟩
      rcases hor with h | h
      · rw [← h] at hd
        simp [ndForm] at hd
      · exact absurd h.symm (List.append_ne_nil_of_right_ne_nil core (by simp))
  | cons c rest =>
    constructor
    · intro h
      have h' : ((c.isDigit && !(c == '0')) && restMatch rest) = true := h
      rcases band_true h' with ⟨h1, h2⟩
      rcases (restMatch_iff rest).mp h2 with h3 | ⟨e, he, hall⟩
      · exact ⟨c :: rest, Or.inl rfl, band_intro (h1) (h3)⟩
      · exact ⟨c :: e, Or.inr (by rw [List.cons_append, ← he]),
          band_intro (h1) (hall)⟩
    · rintro ⟨core, hor, hd⟩
      rcases core with _ | ⟨f, fs⟩
      · rcases hor with h | h
        · exact absurd h (by simp)
        · simp at h
          exact absurd hd (by simp [ndForm])
      · have hd' : ((f.isDigit && !(f == '0')) && fs.all isNd) = true := hd
        rcases band_true hd' with ⟨h1, h2⟩
        show ((c.isDigit && !(c == '0')) && restMatch rest) = true
        rcases hor with he | he
        · injection he with he1 he2
          subst he1
          subst he2
          exact band_intro (h1) ((restMatch_iff rest).mpr (Or.inl h2))
        · rw [List.cons_append] at he
          injection he with he1 he2
          subst he1
          exact band_intro (h1) ((restMatch_iff rest).mpr (Or.inr ⟨fs, he2, h2⟩))

/-!
## Claim theorems
-/

/-- **C3**: for every positive box size and non-empty key, after key
scheduling completes — and after every number of subsequent keystream
steps — the S-box is a permutation of `0..n-1`: all `n` entries in
`[0, n)` and pairwise distinct. -/
theorem sbox_permutation_invariant (r : RC4) (hk : r.key ≠ []) (hn : 0 < r.n) :
    ∃ r1 : RC4, r.ks = Except.ok r1 ∧
      ∀ m : Nat, List.Perm (iterNext r1 m).s (List.range r.n) := by
  refine ⟨_, ks_ok r hk, ?_⟩
  intro m
  exact iterNext_perm
    { r with s := (ksIter r.key r.n r.n (ksInit r.n)).1,
             swap := (ksIter r.key r.n r.n (ksInit r.n)).2.1 }
    hn (ksIter_s_perm r.key r.n hn r.n (Nat.le_refl _)) m

/-- **C3 witness**: concrete instance with key `[1, 2, 3]`, `n = 8`. -/
theorem sbox_permutation_invariant_witness :
    ∃ r1 : RC4, (mkRC4 [1, 2, 3] 8).ks = Except.ok r1 ∧
      ∀ m : Nat, List.Perm (iterNext r1 m).s (List.range (mkRC4 [1, 2, 3] 8).n) :=
  sbox_permutation_invariant (mkRC4 [1, 2, 3] 8) (by decide) (by decide)

/-- **C4**: key scheduling starts from the identity permutation and a
zero running index, performs the keyed swap at each iteration `k`,
records `snapshot[k] = S[k]` immediately after that swap, and on
completion the snapshot has exactly `n` entries, one per iteration in
iteration order. -/
theorem ks_functional_correctness (r : RC4) (hk : r.key ≠ []) :
    ∃ r1 : RC4, r.ks = Except.ok r1 ∧
      (ksInit r.n).1 = List.range r.n ∧
      (ksInit r.n).2.2 = 0 ∧
      (∀ i st, ksStep r.key r.n i st =
        (listSwap st.1 i
            ((st.2.2 + st.1.getD i 0 + r.key.getD (i % r.key.length) 0) % r.n),
         st.2.1.set i ((listSwap st.1 i
            ((st.2.2 + st.1.getD i 0 + r.key.getD (i % r.key.length) 0) % r.n)).getD i 0),
         (st.2.2 + st.1.getD i 0 + r.key.getD (i % r.key.length) 0) % r.n)) ∧
      r1.s = (ksIter r.key r.n r.n (ksInit r.n)).1 ∧
      r1.swap.length = r.n ∧
      (∀ k, k < r.n → r1.swap.getD k 0 =
        (ksIter r.key r.n (k + 1) (ksInit r.n)).1.getD k 0) := by
  refine ⟨_, ks_ok r hk, rfl, rfl, fun i st => rfl, rfl, ?_, ?_⟩
  · show (ksIter r.key r.n r.n (ksInit r.n)).2.1.length = r.n
    rw [ksIter_swap_length]
    simp [ksInit]
  · intro k hkn
    show (ksIter r.key r.n r.n (ksInit r.n)).2.1.getD k 0 = _
    rw [ksIter_swap_stable r.key r.n k r.n hkn, ksIter_swap_getD_succ r.key r.n k hkn]

/-- **C4 witness**: concrete scheduling run with key `[1, 2, 3]`,
`n = 8`. -/
theorem ks_functional_correctness_witness :
    ∃ r1 : RC4, (mkRC4 [1, 2, 3] 8).ks = Except.ok r1 ∧
      (ksInit (mkRC4 [1, 2, 3] 8).n).1 = List.range (mkRC4 [1, 2, 3] 8).n ∧
      (ksInit (mkRC4 [1, 2, 3] 8).n).2.2 = 0 ∧
      (∀ i st, ksStep (mkRC4 [1, 2, 3] 8).key (mkRC4 [1, 2, 3] 8).n i st =
        (listSwap st.1 i
            ((st.2.2 + st.1.getD i 0 + (mkRC4 [1, 2, 3] 8).key.getD
              (i % (mkRC4 [1, 2, 3] 8).key.length) 0) % (mkRC4 [1, 2, 3] 8).n),
         st.2.1.set i ((listSwap st.1 i
            ((st.2.2 + st.1.getD i 0 + (mkRC4 [1, 2, 3] 8).key.getD
              (i % (mkRC4 [1, 2, 3] 8).key.length) 0) % (mkRC4 [1, 2, 3] 8).n)).getD i 0),
         (st.2.2 + st.1.getD i 0 + (mkRC4 [1, 2, 3] 8).key.getD
            (i % (mkRC4 [1, 2, 3] 8).key.length) 0) % (mkRC4 [1, 2, 3] 8).n)) ∧
      r1.s = (ksIter (mkRC4 [1, 2, 3] 8).key (mkRC4 [1, 2, 3] 8).n
        (mkRC4 [1, 2, 3] 8).n (ksInit (mkRC4 [1, 2, 3] 8).n)).1 ∧
      r1.swap.length = (mkRC4 [1, 2, 3] 8).n ∧
      (∀ k, k < (mkRC4 [1, 2, 3] 8).n → r1.swap.getD k 0 =
        (ksIter (mkRC4 [1, 2, 3] 8).key (mkRC4 [1, 2, 3] 8).n (k + 1)
          (ksInit (mkRC4 [1, 2, 3] 8).n)).1.getD k 0) :=
  ks_functional_correctness (mkRC4 [1, 2, 3] 8) (by decide)

/-- **C5**: one keystream step performs exactly the PRGA update —
`i = (i+1) % n`, `j = (j + S[i]) % n`, swap `S[i]` with `S[j]`, emit
`S[(S[i] + S[j]) % n]` — the emitted value lies in `[0, n)` on a valid
permutation state, and the step is a function of `S`, `i`, `j`, `n`
alone (same inputs give the same output and successor state). -/
theorem next_step_spec (r : RC4) (hn : 0 < r.n) (hlen : r.s.length = r.n)
    (hmem : ∀ x ∈ r.s, x < r.n) :
    (r.next).2.i = (r.i + 1) % r.n ∧
    (r.next).2.j = (r.j + r.s.getD ((r.i + 1) % r.n) 0) % r.n ∧
    (r.next).2.s = listSwap r.s ((r.i + 1) % r.n)
      ((r.j + r.s.getD ((r.i + 1) % r.n) 0) % r.n) ∧
    (r.next).1 = (r.next).2.s.getD
      (((r.next).2.s.getD (r.next).2.i 0 + (r.next).2.s.getD (r.next).2.j 0) % r.n) 0 ∧
    (r.next).1 < r.n ∧
    (∀ r2 : RC4, r2.s = r.s → r2.i = r.i → r2.j = r.j → r2.n = r.n →
      (r2.next).1 = (r.next).1 ∧ (r2.next).2.s = (r.next).2.s ∧
      (r2.next).2.i = (r.next).2.i ∧ (r2.next).2.j = (r.next).2.j) := by
  refine ⟨rfl, rfl, rfl, rfl, (next_invariant r hn hlen hmem).1, ?_⟩
  intro r2 hs hi hj hn2
  refine ⟨?_, ?_, ?_, ?_⟩ <;> simp [RC4.next, hs, hi, hj, hn2]

/-- **C5 witness**: concrete valid state (the scheduling result for
key `[0]`, `n = 4`): the emitted keystream value is below `n`. -/
theorem next_step_spec_witness :
    ((⟨[2, 0, 3, 1], 0, 0, 4, [0], []⟩ : RC4).next).1 <
      (⟨[2, 0, 3, 1], 0, 0, 4, [0], []⟩ : RC4).n :=
  (next_step_spec ⟨[2, 0, 3, 1], 0, 0, 4, [0], []⟩
    (by decide) (by decide) (by decide)).2.2.2.2.1

/-- **C6**: for a non-empty key and positive box size, `crypt` returns
a sequence of the same length as the message; the empty message yields
the empty sequence. -/
theorem crypt_length (r : RC4) (msg : List Nat) (hk : r.key ≠ []) (hn : 0 < r.n) :
    ∃ out r2, r.crypt msg = Except.ok (out, r2) ∧
      out.length = msg.length ∧ (msg = [] → out = []) := by
  have h := crypt_run r _ (ks_ok r hk) msg
  refine ⟨_, _, h, cryptLoop_length msg _, ?_⟩
  intro hmsg
  subst hmsg
  rfl

/-- **C6 witness**: key `[1, 2]`, `n = 4`, message `[9, 8, 7]`. -/
theorem crypt_length_witness :
    ∃ out r2, (mkRC4 [1, 2] 4).crypt [9, 8, 7] = Except.ok (out, r2) ∧
      out.length = [9, 8, 7].length ∧ ([9, 8, 7] = ([] : List Nat) → out = []) :=
  crypt_length (mkRC4 [1, 2] 4) [9, 8, 7] (by decide) (by decide)

/-- **C7**: `crypt`'s result depends only on the key, the box size,
the message, and the incoming pointer pair — not on the S-box or
snapshot fields, which scheduling overwrites.  Freshly constructed
engines all start with pointers `(0, 0)`, so two independent runs on
fresh engines with identical key, box size and input produce identical
outputs. -/
theorem crypt_deterministic (r1 r2 : RC4) (msg : List Nat) (hkey : r1.key = r2.key)
    (hn : r1.n = r2.n) (hi : r1.i = r2.i) (hj : r1.j = r2.j) :
    r1.crypt msg = r2.crypt msg := by
  obtain ⟨s1, i1, j1, n1, key1, w1⟩ := r1
  obtain ⟨s2, i2, j2, n2, key2, w2⟩ := r2
  simp only at hkey hn hi hj
  subst hkey hn hi hj
  rfl

/-- **C7 witness**: two engines with the same key `[5]`, `n = 3` and
pointers `(0, 0)` (as fresh construction leaves them) but different
S-box and snapshot fields encrypt `[1, 2]` identically. -/
theorem crypt_deterministic_witness :
    (⟨[7, 7], 0, 0, 3, [5], [9]⟩ : RC4).crypt [1, 2] =
      (⟨[], 0, 0, 3, [5], []⟩ : RC4).crypt [1, 2] :=
  crypt_deterministic ⟨[7, 7], 0, 0, 3, [5], [9]⟩ ⟨[], 0, 0, 3, [5], []⟩ [1, 2]
    rfl rfl rfl rfl

/-- **C8**: on an initialized engine (valid permutation state of size
`n`), the randomness test returns a frequency table of length `n`
whose entries sum to the trial count: exactly one cell is incremented
per keystream draw. -/
theorem random_test_frequency_conservation (r : RC4) (count : Nat) (hn : 0 < r.n)
    (hlen : r.s.length = r.n) (hmem : ∀ x ∈ r.s, x < r.n) :
    (RC4RandomTest.test r count).1.length = r.n ∧
    (RC4RandomTest.test r count).1.sum = count := by
  have h := randomTestLoop_sum count r (List.replicate r.s.length 0) hn hlen hmem
    (by simpa using hlen)
  refine ⟨h.2, ?_⟩
  calc (RC4RandomTest.test r count).1.sum
      = (List.replicate r.s.length (0 : Nat)).sum + count := h.1
    _ = count := by simp

/-- **C8 witness**: scheduled engine for key `[0]`, `n = 4`, drawing
`10` keystream bytes. -/
theorem random_test_frequency_conservation_witness :
    (RC4RandomTest.test ⟨[2, 0, 3, 1], 0, 0, 4, [0], [2, 0, 3, 1]⟩ 10).1.length =
        (⟨[2, 0, 3, 1], 0, 0, 4, [0], [2, 0, 3, 1]⟩ : RC4).n ∧
      (RC4RandomTest.test ⟨[2, 0, 3, 1], 0, 0, 4, [0], [2, 0, 3, 1]⟩ 10).1.sum = 10 :=
  random_test_frequency_conservation ⟨[2, 0, 3, 1], 0, 0, 4, [0], [2, 0, 3, 1]⟩ 10
    (by decide) (by decide) (by decide)

/-- **C9**: key scheduling writes only the S-box and snapshot fields.
Whether it succeeds or raises, the pointer fields `i` and `j` and the
`key` and `n` fields are exactly what they were before the call (the
running index of the loop is a local variable), so generator pointer
state carries over from one `crypt` call to the next on the same
instance. -/
theorem ks_frame (r : RC4) :
    (∀ r1, r.ks = Except.ok r1 →
      r1.i = r.i ∧ r1.j = r.j ∧ r1.key = r.key ∧ r1.n = r.n) ∧
    (∀ e r1, r.ks = Except.error (e, r1) →
      r1.i = r.i ∧ r1.j = r.j ∧ r1.key = r.key ∧ r1.n = r.n) := by
  constructor
  · intro r1 h
    simp only [RC4.ks] at h
    split_ifs at h with h1 h2
    all_goals first
      | (injection h with h
         subst h
         exact ⟨rfl, rfl, rfl, rfl⟩)
      | cases h
  · intro e r1 h
    simp only [RC4.ks] at h
    split_ifs at h with h1 h2
    all_goals first
      | (injection h with h
         injection h with he h
         subst h
         exact ⟨rfl, rfl, rfl, rfl⟩)
      | cases h

/-- **C9 witness**: an instance with non-zero pointers and a stale
S-box keeps `i = 4`, `j = 5`, its key and `n` across `ks`. -/
theorem ks_frame_witness :
    (⟨[0, 1], 4, 5, 2, [3], [1, 1]⟩ : RC4).i = (⟨[9], 4, 5, 2, [3], [8]⟩ : RC4).i ∧
      (⟨[0, 1], 4, 5, 2, [3], [1, 1]⟩ : RC4).j = (⟨[9], 4, 5, 2, [3], [8]⟩ : RC4).j ∧
      (⟨[0, 1], 4, 5, 2, [3], [1, 1]⟩ : RC4).key = (⟨[9], 4, 5, 2, [3], [8]⟩ : RC4).key ∧
      (⟨[0, 1], 4, 5, 2, [3], [1, 1]⟩ : RC4).n = (⟨[9], 4, 5, 2, [3], [8]⟩ : RC4).n :=
  (ks_frame ⟨[9], 4, 5, 2, [3], [8]⟩).1 ⟨[0, 1], 4, 5, 2, [3], [1, 1]⟩ (by rfl)

/-- **C1 counterexample**: with key `[1]`, box size `3`, message `[0]`,
encrypting twice on the *same* engine instance yields `[2]`, not the
original message: `ks` re-runs scheduling but never resets the
generator pointers `i`, `j`, so the second call draws a different
keystream than the first. -/
theorem crypt_same_instance_not_involutive :
    doubleCryptSame [1] 3 [0] = some [2] ∧
      some ([2] : List Nat) ≠ some ([0] : List Nat) :=
  ⟨rfl, by decide⟩

/-- **C1 (amended)**: `crypt(k, n, crypt(k, n, m)) = m` holds when each
application runs on an engine carrying the pointer state of a fresh
construction (`i = j = 0`), e.g. two freshly constructed instances; on
one shared instance the pointers carry over and the law can fail. -/
theorem crypt_fresh_involution (key : List Nat) (n : Nat) (msg : List Nat)
    (hk : key ≠ []) (hn : 0 < n) :
    ∃ c r1 p r2, (mkRC4 key n).crypt msg = Except.ok (c, r1) ∧
      (mkRC4 key n).crypt c = Except.ok (p, r2) ∧ p = msg := by
  have hk' : (mkRC4 key n).key ≠ [] := hk
  obtain ⟨R, hR⟩ : ∃ R, (mkRC4 key n).ks = Except.ok R := ⟨_, ks_ok _ hk'⟩
  refine ⟨(cryptLoop msg R).1, (cryptLoop msg R).2,
    (cryptLoop (cryptLoop msg R).1 R).1, (cryptLoop (cryptLoop msg R).1 R).2,
    ?_, ?_, cryptLoop_involution msg R⟩
  · rw [crypt_run _ R hR msg]
  · rw [crypt_run _ R hR (cryptLoop msg R).1]

/-- **C1 witness**: fresh-instance round trip for key `[1]`, `n = 3`,
message `[0]`. -/
theorem crypt_fresh_involution_witness :
    ∃ c r1 p r2, (mkRC4 [1] 3).crypt [0] = Except.ok (c, r1) ∧
      (mkRC4 [1] 3).crypt c = Except.ok (p, r2) ∧ p = [0] :=
  crypt_fresh_involution [1] 3 [0] (by decide) (by decide)

/-- **C2 counterexample**: constructing from the empty key with
`n = 2` and running `ks` raises, but at the moment the error is raised
the S-box field holds `[0, 1]` (and the snapshot `[0, 0]`), whereas
both were `[]` before the call: state *was* mutated before the failure
surfaced. -/
theorem ks_empty_key_mutates_before_raise :
    (mkRC4 [] 2).ks = Except.error (PyErr.zeroDivision,
      { mkRC4 [] 2 with s := [0, 1], swap := [0, 0] }) ∧
    (mkRC4 [] 2).s = [] ∧ ([0, 1] : List Nat) ≠ [] :=
  ⟨rfl, rfl, by decide⟩

/-- **C2 (amended)**: with an empty key and positive `n`, scheduling
fails and the failure is surfaced to the caller (every `crypt` call
fails the same way, producing no output), but at the raise the S-box
has already been reset to the identity and the snapshot to zeros; only
the pointer fields and `key`, `n` are unmodified. -/
theorem ks_empty_key_error_state (r : RC4) (hk : r.key = []) (hn : 0 < r.n) :
    r.ks = Except.error (PyErr.zeroDivision,
      { r with s := List.range r.n, swap := List.replicate r.n 0 }) ∧
    (∀ msg, r.crypt msg = Except.error (PyErr.zeroDivision,
      { r with s := List.range r.n, swap := List.replicate r.n 0 })) := by
  have h1 : r.key.length = 0 := by simp [hk]
  have h2 : ¬ r.n = 0 := by omega
  have hks : r.ks = Except.error (PyErr.zeroDivision,
      { r with s := List.range r.n, swap := List.replicate r.n 0 }) := by
    simp [RC4.ks, h1, h2]
  refine ⟨hks, ?_⟩
  intro msg
  simp only [RC4.crypt, hks]

/-- **C2 witness**: the empty-key instance with the default box size
`n = 256` behaves as described. -/
theorem ks_empty_key_error_state_witness :
    (mkRC4 [] 256).ks = Except.error (PyErr.zeroDivision,
      { mkRC4 [] 256 with s := List.range 256, swap := List.replicate 256 0 }) ∧
    (∀ msg, (mkRC4 [] 256).crypt msg = Except.error (PyErr.zeroDivision,
      { mkRC4 [] 256 with s := List.range 256, swap := List.replicate 256 0 })) :=
  ks_empty_key_error_state (mkRC4 [] 256) rfl (by decide)

/-- **C10 counterexample**: the validator accepts strings beyond the
claimed non-zero-digit-then-digits set, and the harness then adopts
the entered value instead of keeping the default: `"1\n"` (Python's
`$` matches just before a single trailing newline; the count becomes
`1`) and `"1٣"` with the Arabic-Indic digit three U+0663 (Python's
`\d` matches any Unicode decimal digit and `int` parses it; the count
becomes `13`). -/
theorem check_int_beyond_digit_strings :
    (check_int "1\n" = true ∧ digitsForm ("1\n".data) = false ∧
      (TestRunner.init.get_count "1\n").count = 1) ∧
    (check_int "1٣" = true ∧ digitsForm ("1٣".data) = false ∧
      (TestRunner.init.get_count "1٣").count = 13) :=
  ⟨⟨rfl, rfl, rfl⟩, ⟨rfl, rfl, rfl⟩⟩

/-- **C10 (amended)**: the validator accepts exactly the strings made
of an ASCII non-zero digit `1`-`9` followed by zero or more Unicode
decimal digits (regex `\d`, category `Nd`), optionally ended by a
single trailing newline; whenever it rejects a string — `"0"`,
negative numbers, non-numeric text, `"007"`, ... — the harness keeps
the default trial count `100000`. -/
theorem check_int_characterization (s : String) :
    (check_int s = true ↔
      ∃ core, (s.data = core ∨ s.data = core ++ ['\n']) ∧ ndForm core = true) ∧
    (check_int s = false → (TestRunner.init.get_count s).count = 100000) := by
  constructor
  · exact pyMatchCI_iff s.data
  · intro h
    simp [TestRunner.get_count, h, TestRunner.init]

/-- **C10 witness**: `"007"` is rejected and the default kept. -/
theorem check_int_characterization_witness :
    (TestRunner.init.get_count "007").count = 100000 :=
  (check_int_characterization "007").2 rfl
